import Mathlib

/-!
Verification of the work-stealing async executor core (`src/lib.rs`).

The development shallowly embeds the scheduler's data model: the `Sleepers`
table, the `State` (its `notified` atomic, `searching_count`, global queue and
local-queue slab), `Ticker` operations (`sleep`, `wake`, drop), the
`runnable_with` poll loop, the TLS handoff fast path, the driver operation
`try_tick`, the task-completion guards of `Executor::spawn` and
`LocalExecutor::spawn`, and the `Runner` peer-steal iteration.

Wakers are modelled by natural-number identities; `Waker::will_wake` becomes
equality of identities.  Mutex-protected operations are embedded as atomic
steps on an explicit state record, and an explicit log `woken` records every
waker the embedded code invokes, so "wakes at most one ticker" is a statement
about the log.  Machine `usize` values are `Nat`; the one subtraction in the
source (`Sleepers::remove`'s `count -= 1`) is modelled by truncated `Nat`
subtraction and separately proven to never truncate on reachable states.
-/

/-- The `Sleepers` struct: `count` sleeping tickers, the `(id, waker)` vector
of sleeping *unnotified* tickers, and the stack of reclaimed ids. -/
structure Sleepers where
  count : Nat
  wakers : List (Nat × Nat)
  free_ids : List Nat
deriving Repr, DecidableEq

/-- Embeds `Sleepers::insert`: allocate an id (pop of the `free_ids` vector, i.e. its
last element, else `count + 1`), increment `count`, append `(id, waker)`. -/
def Sleepers.insert (s : Sleepers) (w : Nat) : Nat × Sleepers :=
  match s.free_ids.getLast? with
  | some id =>
      (id, { count := s.count + 1, wakers := s.wakers ++ [(id, w)],
             free_ids := s.free_ids.dropLast })
  | none =>
      (s.count + 1, { count := s.count + 1,
                      wakers := s.wakers ++ [(s.count + 1, w)], free_ids := [] })

/-- The loop body of `Sleepers::update`: scan `wakers` front to back; on the
first entry with the given id, replace its waker when `will_wake` fails and
report `false`; if no entry matches, append `(id, waker)` and report `true`. -/
def updateWakers : List (Nat × Nat) → Nat → Nat → Bool × List (Nat × Nat)
  | [], id, w => (true, [(id, w)])
  | x :: xs, id, w =>
      if x.1 = id then
        (false, (x.1, if x.2 = w then x.2 else w) :: xs)
      else
        let r := updateWakers xs id w
        (r.1, x :: r.2)

/-- Embeds `Sleepers::update`. -/
def Sleepers.update (s : Sleepers) (id w : Nat) : Bool × Sleepers :=
  let r := updateWakers s.wakers id w
  (r.1, { s with wakers := r.2 })

/-- The loop of `Sleepers::remove`: scan `wakers` from the *end* (the source
iterates `(0..len).rev()`), remove the first entry found with the given id and
return its waker. -/
def removeById : List (Nat × Nat) → Nat → Option Nat × List (Nat × Nat)
  | [], _ => (none, [])
  | x :: xs, id =>
      let r := removeById xs id
      match r.1 with
      | some w => (some w, x :: r.2)
      | none => if x.1 = id then (some x.2, xs) else (none, x :: r.2)

/-- Embeds `Sleepers::remove`: decrement `count`, push the id on `free_ids`, remove
the entry (searching from the end) and return its waker, `none` meaning the
waker was already consumed by a notification. -/
def Sleepers.remove (s : Sleepers) (id : Nat) : Option Nat × Sleepers :=
  let r := removeById s.wakers id
  (r.1, { count := s.count - 1, wakers := r.2, free_ids := s.free_ids ++ [id] })

/-- Embeds `Sleepers::is_notified`: `count == 0 || count > wakers.len()`. -/
def Sleepers.isNotified (s : Sleepers) : Bool :=
  s.count = 0 || s.wakers.length < s.count

/-- Embeds `Sleepers::notify`: when `wakers.len() == count` pop the last waker,
otherwise a notification is already pending and `None` is returned. -/
def Sleepers.doNotify (s : Sleepers) : Option Nat × Sleepers :=
  if s.wakers.length = s.count then
    match s.wakers.getLast? with
    | some x => (some x.2, { s with wakers := s.wakers.dropLast })
    | none => (none, s)
  else
    (none, s)

/-- Per-thread TLS payload `TlsData`: the owning `State`'s identity (standing
for the `Arc` pointer compared by `Arc::ptr_eq`), the owning `Ticker` (as an
index into the state's ticker table) and the pending runnable list. -/
structure TlsData where
  stateId : Nat
  tickerIdx : Nat
  pending : List Nat
deriving Repr, DecidableEq

/-- The thread-local `TLS` slot: a `RefCell<Option<TlsData>>`.  `borrowed`
models an outstanding `RefCell` borrow (reentrancy), under which
`try_borrow_mut` fails. -/
structure TlsSlot where
  borrowed : Bool
  data : Option TlsData
deriving Repr, DecidableEq

/-- The executor `State` together with the tickers created against it.
`stateId` stands for the `Arc<State>` pointer identity; `tickers` maps a
ticker handle to `none` (dropped) or `some v` (live, `sleeping` atomic = `v`);
`localQueues` is the slab of registered local-queue handles; `globalQueue` is
the global task queue, modelled from the spec as an unbounded FIFO because the
`taskqueue` module is not part of the sources; `woken` logs every waker id the
code wakes, most recent last. -/
structure ExecState where
  stateId : Nat
  sleepers : Sleepers
  notified : Bool
  searchingCount : Nat
  tickers : List (Option Nat)
  localQueues : List (Option Nat)
  globalQueue : List Nat
  woken : List Nat
deriving Repr, DecidableEq

/-- The freshly created `State`: empty sleepers table, `notified = true`. -/
def initState (sid : Nat) : ExecState :=
  { stateId := sid, sleepers := { count := 0, wakers := [], free_ids := [] },
    notified := true, searchingCount := 0, tickers := [], localQueues := [],
    globalQueue := [], woken := [] }

/-- Embeds `State::notify`: compare-exchange `notified` from `false` to `true`; on
success pop one unnotified waker from the sleepers table and wake it. -/
def stateNotify (es : ExecState) : ExecState :=
  if es.notified then es
  else
    let r := es.sleepers.doNotify
    { es with
        notified := true
        sleepers := r.2
        woken := match r.1 with
                 | some w => es.woken ++ [w]
                 | none => es.woken }

/-- Embeds `Ticker::new`: a fresh ticker in woken state (`sleeping = 0`). -/
def newTicker (es : ExecState) : ExecState :=
  { es with tickers := es.tickers ++ [some 0] }

/-- Embeds `Ticker::sleep` of ticker `t` with context waker `w`: under the sleepers
lock, a woken ticker inserts and records its new id; an already-sleeping one
calls `update` and returns `false` at once (without touching `notified`) when
still unnotified.  Otherwise the `notified` atomic is re-mirrored from
`is_notified` and `true` is returned. -/
def tickerSleep (es : ExecState) (t w : Nat) : Bool × ExecState :=
  match es.tickers.get? t with
  | some (some sl) =>
      if sl = 0 then
        let r := es.sleepers.insert w
        (true, { es with
                   sleepers := r.2
                   tickers := es.tickers.set t (some r.1)
                   notified := r.2.isNotified })
      else
        let r := es.sleepers.update sl w
        if r.1 then
          (true, { es with
                     sleepers := r.2
                     notified := r.2.isNotified })
        else
          (false, { es with sleepers := r.2 })
  | _ => (true, es)

/-- Embeds `Ticker::wake`: swap `sleeping` to `0`; when the old id was nonzero,
remove it from the sleepers table, re-mirror `notified`, and return the
removed waker (`none` when the ticker had been notified). -/
def tickerWake (es : ExecState) (t : Nat) : Option Nat × ExecState :=
  match es.tickers.get? t with
  | some (some sl) =>
      if sl = 0 then (none, es)
      else
        let r := es.sleepers.remove sl
        (r.1, { es with
                  sleepers := r.2
                  tickers := es.tickers.set t (some 0)
                  notified := r.2.isNotified })
  | _ => (none, es)

/-- Embeds `Drop for Ticker`: swap `sleeping` to `0`; when a nonzero id was stored,
remove it, re-mirror `notified`, and when the removal returned `None` (the
ticker had been notified) re-issue `State::notify`.  The ticker's slot is
retired. -/
def tickerDrop (es : ExecState) (t : Nat) : ExecState :=
  match es.tickers.get? t with
  | some (some sl) =>
      if sl = 0 then { es with tickers := es.tickers.set t none }
      else
        let r := es.sleepers.remove sl
        let es1 : ExecState :=
          { es with
              sleepers := r.2
              tickers := es.tickers.set t none
              notified := r.2.isNotified }
        if r.1.isNone then stateNotify es1 else es1
  | _ => { es with tickers := es.tickers.set t none }

/-- Iterates `K` back-to-back `State::notify` calls. -/
def notifyK : Nat → ExecState → ExecState
  | 0, es => es
  | k + 1, es => notifyK k (stateNotify es)

/-- Poll result of the `runnable_with` future. -/
inductive PollRes where
  | pending : PollRes
  | ready : Nat → PollRes
deriving Repr, DecidableEq

/-- The loop body of `Ticker::runnable_with`, the search closure embedded as
the list of its successive return values (one entry per call, so the list
length bounds the iterations).  On `Some r`: `self.wake()` (its returned waker
is discarded), then `State::notify` exactly when `searching_count == 0`, then
resolve with `r`.  On `None`: `self.sleep(cx.waker())`; a `false` result
returns `Pending`, otherwise the loop re-attempts the search.  `none` as
overall result means the fuel list was exhausted with the loop still going. -/
def runnableWithLoop : List (Option Nat) → ExecState → Nat → Nat →
    Option (PollRes × ExecState)
  | [], _, _, _ => none
  | some r :: _, es, t, _ =>
      let es1 := (tickerWake es t).2
      let es2 := if es1.searchingCount = 0 then stateNotify es1 else es1
      some (PollRes.ready r, es2)
  | none :: rest, es, t, w =>
      let s := tickerSleep es t w
      if s.1 then runnableWithLoop rest s.2 t w
      else some (PollRes.pending, s.2)

/-- Embeds `Executor::try_tick`: pop from the global queue only; on `None` return
`false`; on a runnable, call `State::notify` first and then run that one
runnable (returned here as the middle component). -/
def tryTick (es : ExecState) : Bool × Option Nat × ExecState :=
  match es.globalQueue with
  | [] => (false, none, es)
  | r :: rest => (true, some r, stateNotify { es with globalQueue := rest })

/-- Embeds `try_push_tls`: fail (returning the runnable to the caller) when the TLS
slot is borrowed (`try_borrow_mut` fails), empty, or stores a different
`State` (`Arc::ptr_eq`); otherwise append the runnable to the pending list,
invoke the owning ticker's `wake()`, and wake the returned waker if present.
The `Bool` is `true` for `Ok(())`. -/
def tryPushTls (es : ExecState) (tls : TlsSlot) (r : Nat) :
    Bool × ExecState × TlsSlot :=
  if tls.borrowed then (false, es, tls)
  else
    match tls.data with
    | none => (false, es, tls)
    | some d =>
        if d.stateId ≠ es.stateId then (false, es, tls)
        else
          let d1 : TlsData := { d with pending := d.pending ++ [r] }
          let wk := tickerWake es d.tickerIdx
          let es1 := match wk.1 with
                     | some v => { wk.2 with woken := wk.2.woken ++ [v] }
                     | none => wk.2
          (true, es1, { tls with data := some d1 })

/-- The `Executor::schedule` callback: try the TLS handoff; on failure push
the runnable to the global queue and call `State::notify`. -/
def scheduleRemote (es : ExecState) (tls : TlsSlot) (r : Nat) :
    ExecState × TlsSlot :=
  let p := tryPushTls es tls r
  if p.1 then (p.2.1, p.2.2)
  else (stateNotify { p.2.1 with globalQueue := p.2.1.globalQueue ++ [r] }, p.2.2)

/-- Embeds `Drop for TlsData`: drain the whole pending list into the global queue, in
order. -/
def dropTlsData (es : ExecState) (d : TlsData) : ExecState :=
  { es with globalQueue := es.globalQueue ++ d.pending }

/-- Embeds `clear_tls`: overwrite the TLS slot with `None`; the old `TlsData`, when
present, is dropped, which drains its pending list to the global queue. -/
def clearTls (es : ExecState) : Option TlsData → ExecState × Option TlsData
  | none => (es, none)
  | some d => (dropTlsData es d, none)

/-- Embeds `Slab::contains`. -/
def slabContains (s : List (Option α)) (i : Nat) : Bool :=
  match s.get? i with
  | some (some _) => true
  | _ => false

/-- Embeds `Slab::vacant_entry().key()`: the first vacant slot, else the length. -/
def slabVacantKey (s : List (Option α)) : Nat :=
  match s.findIdx? Option.isNone with
  | some k => k
  | none => s.length

/-- Embeds `Slab::insert` at the vacant key. -/
def slabInsert (s : List (Option α)) (v : α) : Nat × List (Option α) :=
  let k := slabVacantKey s
  (k, if k < s.length then s.set k (some v) else s ++ [some v])

/-- Embeds `Slab::remove`, which panics when the key is absent: `none` models the
panic. -/
def slabRemove (s : List (Option α)) (i : Nat) : Option (α × List (Option α)) :=
  match s.get? i with
  | some (some v) => some (v, s.set i none)
  | _ => none

/-- The on-completion guard of `Executor::spawn`: under the active-set lock,
`if active.contains(index) { drop(active.remove(index)); }`.  Total: the
absent case is a no-op.  `none` would model a panic; this guard never
returns it. -/
def executorGuard (active : List (Option Nat)) (i : Nat) :
    Option (List (Option Nat)) :=
  if slabContains active i then
    match slabRemove active i with
    | some p => some p.2
    | none => none
  else
    some active

/-- The on-completion guard of `LocalExecutor::spawn`: under the active-set
lock, `drop(state.active.lock().remove(index))` with no `contains` check, so
an absent index hits `Slab::remove`'s panic (`none`). -/
def localExecutorGuard (active : List (Option Nat)) (i : Nat) :
    Option (List (Option Nat)) :=
  match slabRemove active i with
  | some p => some p.2
  | none => none

/-- Embeds `Slab::iter`: the `(key, value)` pairs of occupied slots in key order. -/
def slabIter (s : List (Option α)) : List (Nat × α) :=
  s.enum.filterMap (fun p => p.2.map (fun v => (p.1, v)))

/-- The peer iteration of `Runner::runnable`'s steal phase:
`iter().chain(iter()).skip(start).take(n)` over the registry snapshot,
filtered to exclude this runner's own queue. -/
def peerOrder (reg : List (Nat × α)) (start selfId : Nat) : List (Nat × α) :=
  (((reg ++ reg).drop start).take reg.length).filter (fun p => p.1 ≠ selfId)

/-- The set of ticker-level operations on the sleepers subsystem:
`Ticker::new`, `Ticker::sleep`, `Ticker::wake`, `Drop for Ticker`, and
`State::notify`, each an atomic step (all `Sleepers` mutations run under the
single sleepers mutex). -/
inductive Step : ExecState → ExecState → Prop where
  | newT (es : ExecState) : Step es (newTicker es)
  | sleep (es : ExecState) (t w sl : Nat)
      (h : es.tickers.get? t = some (some sl)) : Step es (tickerSleep es t w).2
  | wake (es : ExecState) (t sl : Nat)
      (h : es.tickers.get? t = some (some sl)) : Step es (tickerWake es t).2
  | dropT (es : ExecState) (t sl : Nat)
      (h : es.tickers.get? t = some (some sl)) : Step es (tickerDrop es t)
  | notify (es : ExecState) : Step es (stateNotify es)

/-- States produced from a fresh `State` by any sequence of sleepers
operations. -/
inductive Reachable : ExecState → Prop where
  | init (sid : Nat) : Reachable (initState sid)
  | step {es es' : ExecState} : Reachable es → Step es es' → Reachable es'

/-- The sleeper id held by one ticker slot, `none` for a dropped or woken
ticker. -/
def liveVal : Option Nat → Option Nat
  | some id => if id = 0 then none else some id
  | none => none

/-- The ids of currently sleeping tickers, in ticker order. -/
def liveIds (ts : List (Option Nat)) : List Nat :=
  ts.filterMap liveVal

/-- The ids column of the sleepers `wakers` vector. -/
def wakerIds (s : Sleepers) : List Nat :=
  s.wakers.map Prod.fst

/-- The inductive invariant of the sleep/notify subsystem: the `notified`
atomic mirrors `is_notified()`; `count` counts the sleeping tickers; every
unnotified waker entry belongs to a sleeping ticker and ids never repeat; and
the live ids together with the reclaimed ids form exactly `{1, …, count +
free_ids.len()}`. -/
structure SleepInv (es : ExecState) : Prop where
  mirror : es.notified = es.sleepers.isNotified
  countEq : es.sleepers.count = (liveIds es.tickers).length
  subset : ∀ id ∈ wakerIds es.sleepers, id ∈ liveIds es.tickers
  nodup : (wakerIds es.sleepers).Nodup
  partition : (liveIds es.tickers ++ es.sleepers.free_ids).Perm
      (List.range' 1 (es.sleepers.count + es.sleepers.free_ids.length))

theorem liveIds_append (a b : List (Option Nat)) :
    liveIds (a ++ b) = liveIds a ++ liveIds b :=
  List.filterMap_append ..

theorem liveIds_cons (o : Option Nat) (ts : List (Option Nat)) :
    liveIds (o :: ts) =
      match liveVal o with
      | some id => id :: liveIds ts
      | none => liveIds ts := by
  cases h : liveVal o <;> simp [liveIds, List.filterMap_cons, h]

theorem mem_liveIds_of_get? {ts : List (Option Nat)} {t id : Nat}
    (h : ts.get? t = some (some id)) (hid : id ≠ 0) : id ∈ liveIds ts := by
  have hmem : (some id : Option Nat) ∈ ts := by
    have := List.get?_mem h
    exact this
  exact List.mem_filterMap.mpr ⟨some id, hmem, by simp [liveVal, hid]⟩

theorem list_decomp {ts : List (Option Nat)} {t : Nat} {a : Option Nat}
    (h : ts.get? t = some a) :
    ts = ts.take t ++ a :: ts.drop (t + 1) ∧
      ∀ b, ts.set t b = ts.take t ++ b :: ts.drop (t + 1) := by
  have hlt : t < ts.length := by
    by_contra hc
    rw [List.get?_eq_none.mpr (Nat.le_of_not_lt hc)] at h
    cases h
  have hget : ts[t] = a := by
    have := List.get?_eq_get hlt
    rw [this] at h
    simpa using h
  constructor
  · conv_lhs => rw [← List.take_append_drop t ts]
    rw [List.drop_eq_getElem_cons hlt, hget]
  · intro b
    exact List.set_eq_take_cons_drop b hlt

theorem updateWakers_false_iff (l : List (Nat × Nat)) (id w : Nat) :
    (updateWakers l id w).1 = false ↔ id ∈ l.map Prod.fst := by
  induction l with
  | nil => simp [updateWakers]
  | cons x xs ih =>
      by_cases hx : x.1 = id
      · simp [updateWakers, hx]
      · simp [updateWakers, hx, ih, Ne.symm hx]

theorem updateWakers_snd_of_mem (l : List (Nat × Nat)) (id w : Nat)
    (h : id ∈ l.map Prod.fst) :
    ((updateWakers l id w).2.map Prod.fst = l.map Prod.fst) ∧
      (updateWakers l id w).2.length = l.length := by
  induction l with
  | nil => simp at h
  | cons x xs ih =>
      by_cases hx : x.1 = id
      · simp [updateWakers, hx]
      · have hm : id ∈ xs.map Prod.fst := by
          rcases List.mem_map.mp h with ⟨p, hp, he⟩
          rcases List.mem_cons.mp hp with rfl | hp'
          · exact absurd he hx
          · exact List.mem_map.mpr ⟨p, hp', he⟩
        have := ih hm
        simp [updateWakers, hx, this.1, this.2]

theorem updateWakers_snd_of_not_mem (l : List (Nat × Nat)) (id w : Nat)
    (h : id ∉ l.map Prod.fst) :
    (updateWakers l id w).2 = l ++ [(id, w)] := by
  induction l with
  | nil => simp [updateWakers]
  | cons x xs ih =>
      have hx : x.1 ≠ id := by
        intro he
        exact h (by simp [he])
      have hm : id ∉ xs.map Prod.fst := by
        intro hc
        exact h (by simp [hc])
      simp [updateWakers, hx, ih hm]

theorem removeById_none_iff (l : List (Nat × Nat)) (id : Nat) :
    (removeById l id).1 = none ↔ id ∉ l.map Prod.fst := by
  induction l with
  | nil => simp [removeById]
  | cons x xs ih =>
      by_cases hx : x.1 = id
      · cases hr : (removeById xs id).1 with
        | some w => simp [removeById, hr, hx]
        | none => simp [removeById, hr, hx]
      · cases hr : (removeById xs id).1 with
        | some w =>
            have : id ∈ xs.map Prod.fst := by
              by_contra hc
              rw [ih.mpr hc] at hr
              cases hr
            simp [removeById, hr, hx, this, Ne.symm hx]
        | none =>
            have h1 : (removeById (x :: xs) id).1 = none := by
              simp [removeById, hr, hx]
            rw [h1]
            simp only [List.map_cons, List.mem_cons, not_or]
            exact iff_of_true trivial ⟨fun he => hx he.symm, ih.mp hr⟩

theorem removeById_snd_of_not_mem (l : List (Nat × Nat)) (id : Nat)
    (h : id ∉ l.map Prod.fst) : (removeById l id).2 = l := by
  induction l with
  | nil => simp [removeById]
  | cons x xs ih =>
      have hx : x.1 ≠ id := by
        intro he
        exact h (by simp [he])
      have hm : id ∉ xs.map Prod.fst := by
        intro hc
        exact h (by simp [hc])
      have hn : (removeById xs id).1 = none := (removeById_none_iff xs id).mpr hm
      simp [removeById, hn, hx, ih hm]

theorem removeById_some (l : List (Nat × Nat)) (id : Nat) (w : Nat)
    (h : (removeById l id).1 = some w) :
    ∃ l₁ l₂, l = l₁ ++ (id, w) :: l₂ ∧ (removeById l id).2 = l₁ ++ l₂ := by
  induction l with
  | nil => simp [removeById] at h
  | cons x xs ih =>
      cases hr : (removeById xs id).1 with
      | some w' =>
          have hw : w' = w := by
            simp [removeById, hr] at h
            exact h
          rcases ih (hw ▸ hr) with ⟨l₁, l₂, hdec, hres⟩
          exact ⟨x :: l₁, l₂, by simp [hdec], by simp [removeById, hr, hw, hres]⟩
      | none =>
          by_cases hx : x.1 = id
          · have hxw : x.2 = w := by
              simp [removeById, hr, hx] at h
              exact h
            refine ⟨[], xs, ?_, ?_⟩
            · simp [← hx, ← hxw]
            · simp [removeById, hr, hx]
          · simp [removeById, hr, hx] at h

theorem SleepInv.liveNodup {es : ExecState} (hv : SleepInv es) :
    (liveIds es.tickers).Nodup ∧ es.sleepers.free_ids.Nodup ∧
      (liveIds es.tickers).Disjoint es.sleepers.free_ids := by
  have hnd : (liveIds es.tickers ++ es.sleepers.free_ids).Nodup :=
    hv.partition.nodup_iff.mpr (List.nodup_range' 1 _ 1 Nat.one_pos)
  have h3 := List.nodup_append.mp hnd
  exact ⟨h3.1, h3.2.1, h3.2.2⟩

theorem SleepInv.wakersLen {es : ExecState} (hv : SleepInv es) :
    es.sleepers.wakers.length ≤ es.sleepers.count := by
  have hle : (wakerIds es.sleepers).length ≤ (liveIds es.tickers).length :=
    (List.subperm_of_subset hv.nodup fun a ha => hv.subset a ha).length_le
  have hlen : (wakerIds es.sleepers).length = es.sleepers.wakers.length :=
    List.length_map _ _
  rw [hlen] at hle
  rw [hv.countEq]
  exact hle

theorem stateNotify_inv {es : ExecState} (hv : SleepInv es) :
    SleepInv (stateNotify es) := by
  by_cases hn : es.notified
  · rw [stateNotify, if_pos hn]
    exact hv
  · have hmir := hv.mirror
    rw [eq_false_of_ne_true hn] at hmir
    have hisn := hmir.symm
    rw [Sleepers.isNotified] at hisn
    simp only [Bool.or_eq_false_iff, decide_eq_false_iff_not] at hisn
    have hc0 : es.sleepers.count ≠ 0 := hisn.1
    have hge : es.sleepers.count ≤ es.sleepers.wakers.length :=
      Nat.le_of_not_lt hisn.2
    have heq : es.sleepers.wakers.length = es.sleepers.count :=
      Nat.le_antisymm hv.wakersLen hge
    have hne : es.sleepers.wakers ≠ [] := by
      intro hnil
      rw [hnil] at heq
      exact hc0 heq.symm
    have hlast : es.sleepers.wakers.getLast? =
        some (es.sleepers.wakers.getLast hne) :=
      (List.getLast?_eq_getLast _ hne)
    rw [stateNotify, if_neg hn]
    rw [Sleepers.doNotify]
    simp only [heq, if_pos rfl, hlast]
    have hsub : (es.sleepers.wakers.dropLast.map Prod.fst).Sublist
        (es.sleepers.wakers.map Prod.fst) :=
      (List.dropLast_sublist _).map _
    constructor
    · show _ = Sleepers.isNotified _
      rw [Sleepers.isNotified]
      have hlt : es.sleepers.wakers.length - 1 < es.sleepers.count := by
        rw [heq]
        exact Nat.sub_lt (Nat.pos_of_ne_zero hc0) Nat.one_pos
      simp [List.length_dropLast, hlt]
    · exact hv.countEq
    · intro id hid
      exact hv.subset id (hsub.subset hid)
    · exact hv.nodup.sublist hsub
    · exact hv.partition

theorem newTicker_inv {es : ExecState} (hv : SleepInv es) :
    SleepInv (newTicker es) := by
  have hlive : liveIds (newTicker es).tickers = liveIds es.tickers := by
    show liveIds (es.tickers ++ [some 0]) = _
    rw [liveIds_append]
    simp [liveIds, liveVal]
  constructor
  · exact hv.mirror
  · rw [hlive]
    exact hv.countEq
  · intro id hid
    rw [hlive]
    exact hv.subset id hid
  · exact hv.nodup
  · rw [hlive]
    exact hv.partition

theorem liveIds_cons_toList (o : Option Nat) (ts : List (Option Nat)) :
    liveIds (o :: ts) = (liveVal o).toList ++ liveIds ts := by
  cases h : liveVal o <;> simp [liveIds, List.filterMap_cons, h]

theorem liveIds_split {ts : List (Option Nat)} {t : Nat} {a : Option Nat}
    (h : ts.get? t = some a) :
    liveIds ts =
        liveIds (ts.take t) ++ (liveVal a).toList ++ liveIds (ts.drop (t + 1)) ∧
      ∀ b, liveIds (ts.set t b) =
        liveIds (ts.take t) ++ (liveVal b).toList ++ liveIds (ts.drop (t + 1)) := by
  rcases list_decomp h with ⟨hd, hs⟩
  constructor
  · conv_lhs => rw [hd]
    rw [liveIds_append, liveIds_cons_toList, List.append_assoc]
  · intro b
    rw [hs b, liveIds_append, liveIds_cons_toList, List.append_assoc]

theorem mem_of_getLast?_eq {l : List Nat} {a : Nat} (h : l.getLast? = some a) :
    a ∈ l ∧ l ≠ [] ∧ l.dropLast ++ [a] = l := by
  have hne : l ≠ [] := by
    intro hc
    rw [hc] at h
    cases h
  have hg := List.getLast_eq_iff_getLast?_eq_some hne |>.mpr h
  refine ⟨?_, hne, ?_⟩
  · rw [← hg]
    exact List.getLast_mem hne
  · rw [← hg]
    exact List.dropLast_append_getLast hne



theorem perm_shuffle (A B fr : List Nat) (nid : Nat) :
    ((A ++ [nid] ++ B) ++ fr).Perm (A ++ B ++ fr ++ [nid]) := by
  have h1 : (A ++ [nid] ++ B).Perm (nid :: (A ++ B)) := by
    rw [List.append_assoc]
    exact List.perm_middle
  have h2 : ((A ++ [nid] ++ B) ++ fr).Perm ((nid :: (A ++ B)) ++ fr) :=
    h1.append_right fr
  have h3 : ((A ++ B ++ fr) ++ [nid]).Perm (nid :: (A ++ B ++ fr)) :=
    List.perm_append_singleton _ _
  have h4 : ((nid :: (A ++ B)) ++ fr) = nid :: (A ++ B ++ fr) := rfl
  rw [h4] at h2
  exact h2.trans h3.symm

theorem tickerSleep_inv {es : ExecState} {t w sl : Nat} (hv : SleepInv es)
    (h : es.tickers.get? t = some (some sl)) :
    SleepInv (tickerSleep es t w).2 := by
  have h' : es.tickers[t]? = some (some sl) := by
    rw [← List.get?_eq_getElem?]
    exact h
  rcases liveIds_split h with ⟨hsplit, hset⟩
  by_cases hsl : sl = 0
  · subst hsl
    have hAB : liveIds es.tickers =
        liveIds (es.tickers.take t) ++ liveIds (es.tickers.drop (t + 1)) := by
      simpa [liveVal] using hsplit
    have hred : (tickerSleep es t w).2 =
        { es with
            sleepers := (es.sleepers.insert w).2
            tickers := es.tickers.set t (some (es.sleepers.insert w).1)
            notified := (es.sleepers.insert w).2.isNotified } := by
      simp [tickerSleep, h']
    rw [hred]
    have hcore : ∀ nid : Nat, ∀ fr : List Nat,
        es.sleepers.insert w =
          (nid, { count := es.sleepers.count + 1,
                  wakers := es.sleepers.wakers ++ [(nid, w)], free_ids := fr }) →
        nid ≠ 0 → nid ∉ liveIds es.tickers →
        (liveIds es.tickers ++ fr ++ [nid]).Perm
          (List.range' 1 (es.sleepers.count + 1 + fr.length)) →
        SleepInv { es with
            sleepers := (es.sleepers.insert w).2
            tickers := es.tickers.set t (some (es.sleepers.insert w).1)
            notified := (es.sleepers.insert w).2.isNotified } := by
      intro nid fr hins hnz hnl hperm
      have hnw : nid ∉ wakerIds es.sleepers := fun hc => hnl (hv.subset nid hc)
      have hlivenew : liveIds (es.tickers.set t (some nid)) =
          liveIds (es.tickers.take t) ++ [nid] ++
            liveIds (es.tickers.drop (t + 1)) := by
        simpa [liveVal, hnz] using hset (some nid)
      rw [hins]
      constructor
      · rfl
      · show es.sleepers.count + 1 = _
        rw [hlivenew, hv.countEq, hAB]
        simp [List.length_append]
        omega
      · intro id hid
        show id ∈ liveIds (es.tickers.set t (some nid))
        rw [hlivenew]
        have hid' : id ∈ wakerIds es.sleepers ++ [nid] := by
          simpa [wakerIds, List.map_append] using hid
        rcases List.mem_append.mp hid' with hold | hnew
        · have := hv.subset id hold
          rw [hAB] at this
          rcases List.mem_append.mp this with hA | hB
          · exact List.mem_append.mpr (Or.inl (List.mem_append.mpr (Or.inl hA)))
          · exact List.mem_append.mpr (Or.inr hB)
        · have : id = nid := by simpa using hnew
          subst this
          exact List.mem_append.mpr (Or.inl (List.mem_append.mpr (Or.inr (by simp))))
      · show ((es.sleepers.wakers ++ [(nid, w)]).map Prod.fst).Nodup
        rw [List.map_append, List.nodup_append]
        refine ⟨hv.nodup, by simp, ?_⟩
        intro a ha hb
        have : a = nid := by simpa using hb
        subst this
        exact hnw ha
      · show (liveIds (es.tickers.set t (some nid)) ++ fr).Perm
          (List.range' 1 (es.sleepers.count + 1 + fr.length))
        rw [hlivenew]
        have hp1 := perm_shuffle (liveIds (es.tickers.take t))
          (liveIds (es.tickers.drop (t + 1))) fr nid
        rw [← hAB] at hp1
        exact hp1.trans hperm
    rcases hfree : es.sleepers.free_ids.getLast? with _ | fid
    · have hnil : es.sleepers.free_ids = [] :=
        List.getLast?_eq_none_iff.mp hfree
      have hins : es.sleepers.insert w =
          (es.sleepers.count + 1,
            { count := es.sleepers.count + 1,
              wakers := es.sleepers.wakers ++ [(es.sleepers.count + 1, w)],
              free_ids := [] }) := by
        simp [Sleepers.insert, hfree]
      have hpartnil : (liveIds es.tickers).Perm
          (List.range' 1 es.sleepers.count) := by
        have := hv.partition
        rw [hnil] at this
        simpa using this
      refine hcore (es.sleepers.count + 1) [] hins (by omega) ?_ ?_
      · intro hc
        have := hpartnil.mem_iff.mp hc
        have hb := List.mem_range'_1.mp this
        omega
      · have hap := hpartnil.append_right [es.sleepers.count + 1]
        have hcat : List.range' 1 es.sleepers.count ++ [es.sleepers.count + 1] =
            List.range' 1 (es.sleepers.count + 1) := by
          have := @List.range'_concat 1 1 es.sleepers.count
          simp at this
          rw [this]
          simp [Nat.add_comm]
        rw [hcat] at hap
        simpa using hap
    · have hm := mem_of_getLast?_eq hfree
      have hins : es.sleepers.insert w =
          (fid, { count := es.sleepers.count + 1,
                  wakers := es.sleepers.wakers ++ [(fid, w)],
                  free_ids := es.sleepers.free_ids.dropLast }) := by
        simp [Sleepers.insert, hfree]
      have hfid1 : 1 ≤ fid := by
        have hmem : fid ∈ liveIds es.tickers ++ es.sleepers.free_ids :=
          List.mem_append.mpr (Or.inr hm.1)
        have := hv.partition.mem_iff.mp hmem
        have hb := List.mem_range'_1.mp this
        omega
      refine hcore fid es.sleepers.free_ids.dropLast hins (by omega) ?_ ?_
      · intro hc
        exact hv.liveNodup.2.2 hc hm.1
      · have hp := hv.partition
        rw [← hm.2.2] at hp
        rw [← List.append_assoc] at hp
        have harg : es.sleepers.count + 1 +
            es.sleepers.free_ids.dropLast.length =
            es.sleepers.count +
              (es.sleepers.free_ids.dropLast ++ [fid]).length := by
          simp [List.length_append]
          omega
        rw [harg]
        exact hp
  · have hred : (tickerSleep es t w).2 =
        (if (updateWakers es.sleepers.wakers sl w).1 then
          { es with
              sleepers := (es.sleepers.update sl w).2
              notified := (es.sleepers.update sl w).2.isNotified }
        else { es with sleepers := (es.sleepers.update sl w).2 }) := by
      simp only [tickerSleep, List.get?_eq_getElem?, h']
      rw [if_neg hsl]
      by_cases hb : (updateWakers es.sleepers.wakers sl w).1
      · simp [Sleepers.update, hb]
      · simp [Sleepers.update, hb]
    rw [hred]
    by_cases hb : (updateWakers es.sleepers.wakers sl w).1
    · rw [if_pos hb]
      have hnm : sl ∉ es.sleepers.wakers.map Prod.fst := by
        intro hc
        rw [← updateWakers_false_iff es.sleepers.wakers sl w] at hc
        rw [hc] at hb
        cases hb
      have hup : (es.sleepers.update sl w).2 =
          { count := es.sleepers.count,
            wakers := es.sleepers.wakers ++ [(sl, w)],
            free_ids := es.sleepers.free_ids } := by
        simp [Sleepers.update, updateWakers_snd_of_not_mem _ _ _ hnm]
      rw [hup]
      constructor
      · rfl
      · exact hv.countEq
      · intro id hid
        have hid' : id ∈ wakerIds es.sleepers ++ [sl] := by
          simpa [wakerIds, List.map_append] using hid
        rcases List.mem_append.mp hid' with hold | hnew
        · exact hv.subset id hold
        · have : id = sl := by simpa using hnew
          subst this
          exact mem_liveIds_of_get? h hsl
      · show ((es.sleepers.wakers ++ [(sl, w)]).map Prod.fst).Nodup
        rw [List.map_append, List.nodup_append]
        refine ⟨hv.nodup, by simp, ?_⟩
        intro a ha hbm
        have : a = sl := by simpa using hbm
        subst this
        exact hnm ha
      · exact hv.partition
    · rw [if_neg hb]
      have hmm : sl ∈ es.sleepers.wakers.map Prod.fst := by
        rw [← updateWakers_false_iff es.sleepers.wakers sl w]
        exact Bool.eq_false_iff.mpr hb
      have hids := updateWakers_snd_of_mem es.sleepers.wakers sl w hmm
      constructor
      · show es.notified = Sleepers.isNotified _
        rw [hv.mirror]
        show Sleepers.isNotified _ = Sleepers.isNotified _
        rw [Sleepers.isNotified, Sleepers.isNotified]
        simp only [Sleepers.update]
        simp only [hids.2]
      · exact hv.countEq
      · intro id hid
        have : id ∈ wakerIds es.sleepers := by
          have hmap : (updateWakers es.sleepers.wakers sl w).2.map Prod.fst =
              es.sleepers.wakers.map Prod.fst := hids.1
          have hid2 : id ∈ (updateWakers es.sleepers.wakers sl w).2.map
              Prod.fst := by
            simpa [wakerIds, Sleepers.update] using hid
          rw [hmap] at hid2
          exact hid2
        exact hv.subset id this
      · show ((updateWakers es.sleepers.wakers sl w).2.map Prod.fst).Nodup
        rw [hids.1]
        exact hv.nodup
      · exact hv.partition

theorem remove_core_inv {es : ExecState} {t sl : Nat} (hv : SleepInv es)
    (h : es.tickers.get? t = some (some sl)) (hsl : sl ≠ 0) (b : Option Nat)
    (hb : liveVal b = none) :
    SleepInv { es with
        sleepers := (es.sleepers.remove sl).2
        tickers := es.tickers.set t b
        notified := (es.sleepers.remove sl).2.isNotified } := by
  rcases liveIds_split h with ⟨hsplit, hset⟩
  have hAB : liveIds es.tickers =
      liveIds (es.tickers.take t) ++ [sl] ++
        liveIds (es.tickers.drop (t + 1)) := by
    simpa [liveVal, hsl] using hsplit
  have hlivenew : liveIds (es.tickers.set t b) =
      liveIds (es.tickers.take t) ++ liveIds (es.tickers.drop (t + 1)) := by
    simpa [hb] using hset b
  have hrem : (es.sleepers.remove sl).2 =
      { count := es.sleepers.count - 1,
        wakers := (removeById es.sleepers.wakers sl).2,
        free_ids := es.sleepers.free_ids ++ [sl] } := rfl
  have hcount1 : 1 ≤ es.sleepers.count := by
    rw [hv.countEq, hAB]
    simp [List.length_append]
    omega
  have hsub : ((removeById es.sleepers.wakers sl).2.map Prod.fst).Sublist
        (es.sleepers.wakers.map Prod.fst) ∧
      sl ∉ (removeById es.sleepers.wakers sl).2.map Prod.fst := by
    cases hr : (removeById es.sleepers.wakers sl).1 with
    | none =>
        have hnm := (removeById_none_iff es.sleepers.wakers sl).mp hr
        rw [removeById_snd_of_not_mem es.sleepers.wakers sl hnm]
        exact ⟨List.Sublist.refl _, hnm⟩
    | some w' =>
        rcases removeById_some es.sleepers.wakers sl w' hr with ⟨l₁, l₂, hdec, hres⟩
        have hnd := hv.nodup
        rw [show wakerIds es.sleepers = es.sleepers.wakers.map Prod.fst from rfl,
          hdec, List.map_append, List.map_cons] at hnd
        rw [hres, hdec, List.map_append, List.map_append, List.map_cons]
        rw [List.nodup_append] at hnd
        constructor
        · exact List.Sublist.append_left (List.sublist_cons_self _ _) _
        · intro hc
          rcases List.mem_append.mp hc with h1 | h2
          · exact hnd.2.2 h1 (by simp)
          · exact (List.nodup_cons.mp hnd.2.1).1 h2
  constructor
  · rfl
  · show es.sleepers.count - 1 = _
    rw [hlivenew]
    have := hv.countEq
    rw [hAB] at this
    simp [List.length_append] at this ⊢
    omega
  · intro id hid
    show id ∈ liveIds (es.tickers.set t b)
    rw [hlivenew]
    have hid' : id ∈ (removeById es.sleepers.wakers sl).2.map Prod.fst := by
      simpa [wakerIds] using hid
    have hidw : id ∈ wakerIds es.sleepers := hsub.1.subset hid'
    have hidl := hv.subset id hidw
    rw [hAB] at hidl
    have hne : id ≠ sl := by
      intro he
      subst he
      exact hsub.2 hid'
    rcases List.mem_append.mp hidl with h1 | h2
    · rcases List.mem_append.mp h1 with hA | hm
      · exact List.mem_append.mpr (Or.inl hA)
      · exact absurd (by simpa using hm) hne
    · exact List.mem_append.mpr (Or.inr h2)
  · show ((removeById es.sleepers.wakers sl).2.map Prod.fst).Nodup
    exact hv.nodup.sublist hsub.1
  · show (liveIds (es.tickers.set t b) ++
        (es.sleepers.free_ids ++ [sl])).Perm
      (List.range' 1 (es.sleepers.count - 1 +
        (es.sleepers.free_ids ++ [sl]).length))
    rw [hlivenew]
    have hp1 := perm_shuffle (liveIds (es.tickers.take t))
      (liveIds (es.tickers.drop (t + 1))) es.sleepers.free_ids sl
    have hstep : ((liveIds (es.tickers.take t) ++
          liveIds (es.tickers.drop (t + 1))) ++
        (es.sleepers.free_ids ++ [sl])).Perm
        (liveIds es.tickers ++ es.sleepers.free_ids) := by
      rw [← List.append_assoc]
      have h2 := hp1.symm
      rw [← hAB] at h2
      exact h2
    have harg : es.sleepers.count - 1 +
        (es.sleepers.free_ids ++ [sl]).length =
        es.sleepers.count + es.sleepers.free_ids.length := by
      simp [List.length_append]
      omega
    rw [harg]
    exact hstep.trans hv.partition

theorem tickerWake_inv {es : ExecState} {t sl : Nat} (hv : SleepInv es)
    (h : es.tickers.get? t = some (some sl)) :
    SleepInv (tickerWake es t).2 := by
  have h' : es.tickers[t]? = some (some sl) := by
    rw [← List.get?_eq_getElem?]
    exact h
  by_cases hsl : sl = 0
  · subst hsl
    have hred : (tickerWake es t).2 = es := by
      simp [tickerWake, h']
    rw [hred]
    exact hv
  · have hred : (tickerWake es t).2 =
        { es with
            sleepers := (es.sleepers.remove sl).2
            tickers := es.tickers.set t (some 0)
            notified := (es.sleepers.remove sl).2.isNotified } := by
      simp [tickerWake, h', hsl]
    rw [hred]
    exact remove_core_inv hv h hsl (some 0) (by simp [liveVal])

theorem tickerDrop_inv {es : ExecState} {t sl : Nat} (hv : SleepInv es)
    (h : es.tickers.get? t = some (some sl)) :
    SleepInv (tickerDrop es t) := by
  have h' : es.tickers[t]? = some (some sl) := by
    rw [← List.get?_eq_getElem?]
    exact h
  rcases liveIds_split h with ⟨hsplit, hset⟩
  by_cases hsl : sl = 0
  · subst hsl
    have hred : tickerDrop es t =
        { es with tickers := es.tickers.set t none } := by
      simp [tickerDrop, h']
    rw [hred]
    have hlive : liveIds (es.tickers.set t none) = liveIds es.tickers := by
      have h1 := hset none
      have h2 := hsplit
      simp [liveVal] at h1 h2
      rw [h1, ← h2]
    constructor
    · exact hv.mirror
    · show _ = (liveIds (es.tickers.set t none)).length
      rw [hlive]
      exact hv.countEq
    · intro id hid
      show id ∈ liveIds (es.tickers.set t none)
      rw [hlive]
      exact hv.subset id hid
    · exact hv.nodup
    · show (liveIds (es.tickers.set t none) ++ _).Perm _
      rw [hlive]
      exact hv.partition
  · have hred : tickerDrop es t =
        (if ((es.sleepers.remove sl).1).isNone then
          stateNotify { es with
              sleepers := (es.sleepers.remove sl).2
              tickers := es.tickers.set t none
              notified := (es.sleepers.remove sl).2.isNotified }
        else { es with
            sleepers := (es.sleepers.remove sl).2
            tickers := es.tickers.set t none
            notified := (es.sleepers.remove sl).2.isNotified }) := by
      simp only [tickerDrop, List.get?_eq_getElem?, h']
      rw [if_neg hsl]
    rw [hred]
    have hcore := remove_core_inv hv h hsl none rfl
    by_cases hn : ((es.sleepers.remove sl).1).isNone
    · rw [if_pos hn]
      exact stateNotify_inv hcore
    · rw [if_neg hn]
      exact hcore

theorem initState_inv (sid : Nat) : SleepInv (initState sid) := by
  constructor
  · simp [initState, Sleepers.isNotified]
  · simp [initState, liveIds]
  · intro id hid
    simp [initState, wakerIds] at hid
  · simp [initState, wakerIds]
  · simp [initState, liveIds]

theorem step_inv {es es' : ExecState} (hs : Step es es') (hv : SleepInv es) :
    SleepInv es' := by
  cases hs with
  | newT => exact newTicker_inv hv
  | sleep t w sl h => exact tickerSleep_inv hv h
  | wake t sl h => exact tickerWake_inv hv h
  | dropT t sl h => exact tickerDrop_inv hv h
  | notify => exact stateNotify_inv hv

theorem reachable_inv {es : ExecState} (hr : Reachable es) : SleepInv es := by
  induction hr with
  | init sid => exact initState_inv sid
  | step hprev hstep ih => exact step_inv hstep ih

theorem stateNotify_of_notified {es : ExecState} (h : es.notified = true) :
    stateNotify es = es := by
  rw [stateNotify, if_pos h]

theorem stateNotify_notified (es : ExecState) :
    (stateNotify es).notified = true := by
  by_cases h : es.notified
  · rw [stateNotify_of_notified h]
    exact h
  · rw [stateNotify, if_neg h]

theorem stateNotify_woken_le (es : ExecState) :
    (stateNotify es).woken.length ≤ es.woken.length + 1 := by
  by_cases h : es.notified
  · rw [stateNotify_of_notified h]
    omega
  · rw [stateNotify, if_neg h]
    cases hr : (es.sleepers.doNotify).1 <;> simp [hr]

theorem notifyK_fixed {es : ExecState} (k : Nat) (h : es.notified = true) :
    notifyK k es = es := by
  induction k with
  | zero => rfl
  | succ n ih =>
      show notifyK n (stateNotify es) = es
      rw [stateNotify_of_notified h]
      exact ih

/-- C1.  Every state of the sleepers table reachable by any sequence of the
operations `Ticker::new`/`sleep`/`wake`/drop and `State::notify` (each atomic
under the sleepers mutex, so between-step points are the stable points)
satisfies `wakers.len() ≤ count`, and the `notified` atomic equals
`is_notified()`, i.e. `count == 0 || count > wakers.len()`.  The initial state
(`count = 0`, no wakers, `notified = true`) is the base case of
`Reachable`. -/
theorem sleepers_table_invariant {es : ExecState} (hr : Reachable es) :
    es.sleepers.wakers.length ≤ es.sleepers.count ∧
      es.notified = es.sleepers.isNotified := by
  have hv := reachable_inv hr
  exact ⟨hv.wakersLen, hv.mirror⟩

theorem sleepers_table_invariant_witness :
    (tickerSleep (newTicker (initState 0)) 0 7).2.sleepers.wakers.length ≤
        (tickerSleep (newTicker (initState 0)) 0 7).2.sleepers.count ∧
      (tickerSleep (newTicker (initState 0)) 0 7).2.notified =
        (tickerSleep (newTicker (initState 0)) 0 7).2.sleepers.isNotified :=
  sleepers_table_invariant
    (Reachable.step (Reachable.step (Reachable.init 0) (Step.newT _))
      (Step.sleep (newTicker (initState 0)) 0 7 0 (by rfl)))

/-- C10.  In every reachable state, `Sleepers::count` equals the number of
tickers whose `sleeping` atomic holds a nonzero id; each such id is a live
allocation (present among the sleeping ids, not on the `free_ids` stack, and
nonzero), so whenever `wake()` or drop observes a nonzero swapped-out id and
calls `Sleepers::remove`, `count > 0` and the unconditional `count -= 1`
cannot underflow. -/
theorem sleeping_ids_live_no_underflow {es : ExecState} (hr : Reachable es) :
    es.sleepers.count = (liveIds es.tickers).length ∧
      ∀ t id, es.tickers.get? t = some (some id) → id ≠ 0 →
        id ∈ liveIds es.tickers ∧ id ∉ es.sleepers.free_ids ∧
          0 < es.sleepers.count := by
  have hv := reachable_inv hr
  refine ⟨hv.countEq, ?_⟩
  intro t id h hid
  have hmem := mem_liveIds_of_get? h hid
  refine ⟨hmem, fun hf => hv.liveNodup.2.2 hmem hf, ?_⟩
  rw [hv.countEq]
  exact List.length_pos.mpr (List.ne_nil_of_mem hmem)

theorem sleeping_ids_live_no_underflow_witness :
    (tickerSleep (newTicker (initState 0)) 0 7).2.sleepers.count =
        (liveIds (tickerSleep (newTicker (initState 0)) 0 7).2.tickers).length ∧
      1 ∈ liveIds (tickerSleep (newTicker (initState 0)) 0 7).2.tickers ∧
        1 ∉ (tickerSleep (newTicker (initState 0)) 0 7).2.sleepers.free_ids ∧
          0 < (tickerSleep (newTicker (initState 0)) 0 7).2.sleepers.count := by
  have h := sleeping_ids_live_no_underflow
    (Reachable.step (Reachable.step (Reachable.init 0) (Step.newT _))
      (Step.sleep (newTicker (initState 0)) 0 7 0 (by rfl)))
  exact ⟨h.1, h.2 0 1 (by rfl) (by decide)⟩

/-- C3.  Notify idempotence: `K` back-to-back `State::notify` calls wake at
most one additional ticker (the `woken` log grows by at most one entry); a
single call pops at most one waker; after any call the `notified` flag is
`true`, and while it is already `true` a notify call is the identity, so only
a call that compare-exchanges `false → true` reaches the sleepers table. -/
theorem notify_idempotence (es : ExecState) (k : Nat) :
    (notifyK k es).woken.length ≤ es.woken.length + 1 ∧
      (stateNotify es).notified = true ∧
      (es.notified = true → notifyK k es = es) := by
  refine ⟨?_, stateNotify_notified es, notifyK_fixed k⟩
  cases k with
  | zero => simp [notifyK]
  | succ n =>
      show (notifyK n (stateNotify es)).woken.length ≤ es.woken.length + 1
      rw [notifyK_fixed n (stateNotify_notified es)]
      exact stateNotify_woken_le es

theorem notify_idempotence_witness :
    (notifyK 3 (initState 0)).woken.length ≤ (initState 0).woken.length + 1 ∧
      notifyK 3 (initState 0) = initState 0 :=
  ⟨(notify_idempotence (initState 0) 3).1,
    (notify_idempotence (initState 0) 3).2.2 rfl⟩

theorem getElem?_of_get? {α : Type} {l : List α} {n : Nat} {a : Option α}
    (h : l.get? n = a) : l[n]? = a := by
  rw [← List.get?_eq_getElem?]
  exact h

theorem tickerSleep_false_iff (es : ExecState) (t w : Nat) :
    (tickerSleep es t w).1 = false ↔
      ∃ id, es.tickers.get? t = some (some id) ∧ id ≠ 0 ∧
        id ∈ es.sleepers.wakers.map Prod.fst := by
  rcases hg : es.tickers.get? t with _ | o
  · have hg' := getElem?_of_get? hg
    constructor
    · intro hc
      simp [tickerSleep, hg'] at hc
    · rintro ⟨id, hid, _⟩
      cases hid
  · have hg' := getElem?_of_get? hg
    cases o with
    | none =>
        constructor
        · intro hc
          simp [tickerSleep, hg'] at hc
        · rintro ⟨id, hid, _⟩
          cases hid
    | some sl =>
        by_cases hsl : sl = 0
        · subst hsl
          constructor
          · intro hc
            simp [tickerSleep, hg'] at hc
          · rintro ⟨id, hid, hnz, _⟩
            cases hid
            exact absurd rfl hnz
        · constructor
          · intro hc
            refine ⟨sl, rfl, hsl, ?_⟩
            rw [← updateWakers_false_iff es.sleepers.wakers sl w]
            by_cases hu : (updateWakers es.sleepers.wakers sl w).1
            · exfalso
              simp [tickerSleep, hg', hsl, Sleepers.update, hu] at hc
            · exact Bool.eq_false_iff.mpr hu
          · rintro ⟨id, hid, hnz, hmem⟩
            cases hid
            have hu : (updateWakers es.sleepers.wakers sl w).1 = false :=
              (updateWakers_false_iff es.sleepers.wakers sl w).mpr hmem
            simp [tickerSleep, hg', hsl, Sleepers.update, hu]

theorem tickerWake_woken_state {es : ExecState} {t sl : Nat}
    (h : es.tickers.get? t = some (some sl)) :
    ((tickerWake es t).2).tickers.get? t = some (some 0) := by
  have h' := getElem?_of_get? h
  have hlt : t < es.tickers.length := by
    by_contra hc
    rw [List.get?_eq_none.mpr (Nat.le_of_not_lt hc)] at h
    cases h
  by_cases hsl : sl = 0
  · subst hsl
    have : (tickerWake es t).2 = es := by
      simp [tickerWake, h']
    rw [this]
    exact h
  · have : (tickerWake es t).2.tickers = es.tickers.set t (some 0) := by
      simp [tickerWake, h', hsl]
    rw [this, List.get?_eq_getElem?, List.getElem?_set]
    simp [hlt]

/-- C4.  One poll iteration of the future built by `Ticker::runnable_with`:
when the search yields `Some r`, the ticker wakes (its `sleeping` atomic
becomes `0`), `State::notify` runs exactly when `searching_count == 0` at that
moment, and the poll resolves with `r`; when the search yields `None`, `sleep`
runs with the context waker, the poll returns `Pending` exactly when `sleep`
returned `false` — which happens exactly when the ticker was already sleeping
and unnotified (its id still in `wakers`) — and otherwise loops to re-attempt
the search. -/
theorem runnableWith_poll_behavior :
    (∀ (es : ExecState) (t w r : Nat) (rest : List (Option Nat)),
        runnableWithLoop (some r :: rest) es t w =
          some (PollRes.ready r,
            if ((tickerWake es t).2).searchingCount = 0
            then stateNotify (tickerWake es t).2
            else (tickerWake es t).2)) ∧
    (∀ (es : ExecState) (t w : Nat) (rest : List (Option Nat)),
        ((tickerSleep es t w).1 = false →
          runnableWithLoop (none :: rest) es t w =
            some (PollRes.pending, (tickerSleep es t w).2)) ∧
        ((tickerSleep es t w).1 = true →
          runnableWithLoop (none :: rest) es t w =
            runnableWithLoop rest (tickerSleep es t w).2 t w)) ∧
    (∀ (es : ExecState) (t w : Nat),
        ((tickerSleep es t w).1 = false ↔
          ∃ id, es.tickers.get? t = some (some id) ∧ id ≠ 0 ∧
            id ∈ es.sleepers.wakers.map Prod.fst)) ∧
    (∀ (es : ExecState) (t sl : Nat), es.tickers.get? t = some (some sl) →
        ((tickerWake es t).2).tickers.get? t = some (some 0)) := by
  refine ⟨?_, ?_, tickerSleep_false_iff, fun es t sl h => tickerWake_woken_state h⟩
  · intro es t w r rest
    rfl
  · intro es t w rest
    constructor
    · intro hf
      simp [runnableWithLoop, hf]
    · intro ht
      simp [runnableWithLoop, ht]

/-- A state with one ticker sleeping unnotified under id 1, used to exercise
the `Pending` branch. -/
def sampleSleeping : ExecState :=
  { stateId := 0, sleepers := { count := 1, wakers := [(1, 5)], free_ids := [] },
    notified := false, searchingCount := 0, tickers := [some 1],
    localQueues := [], globalQueue := [], woken := [] }

theorem runnableWith_poll_behavior_witness :
    runnableWithLoop [none] sampleSleeping 0 9 =
      some (PollRes.pending, (tickerSleep sampleSleeping 0 9).2) :=
  (runnableWith_poll_behavior.2.1 sampleSleeping 0 9 []).1 (by decide)

theorem tickerWake_globalQueue (es : ExecState) (t : Nat) :
    ((tickerWake es t).2).globalQueue = es.globalQueue := by
  rcases hg : es.tickers.get? t with _ | o
  · simp [tickerWake, getElem?_of_get? hg]
  · cases o with
    | none => simp [tickerWake, getElem?_of_get? hg]
    | some sl =>
        by_cases hsl : sl = 0
        · simp [tickerWake, getElem?_of_get? hg, hsl]
        · simp [tickerWake, getElem?_of_get? hg, hsl]

theorem tryPushTls_fail_eq {es : ExecState} {tls : TlsSlot} {r : Nat}
    (h : (tryPushTls es tls r).1 = false) :
    tryPushTls es tls r = (false, es, tls) := by
  by_cases hb : tls.borrowed
  · simp [tryPushTls, hb]
  · rcases hd : tls.data with _ | d
    · simp [tryPushTls, hb, hd]
    · by_cases hs : d.stateId = es.stateId
      · exfalso
        cases hw : (tickerWake es d.tickerIdx).1 <;>
          simp [tryPushTls, hb, hd, hs, hw] at h
      · simp [tryPushTls, hb, hd, hs]

/-- C5.  The `Executor::schedule` callback: the TLS handoff fails exactly when
the slot is borrowed (reentrancy), empty, or holds a different `State`; on
failure the runnable goes to the global queue followed by `State::notify`; on
success the runnable is appended to the TLS pending list, the owning ticker's
`wake()` runs (its returned waker, if any, is woken), and the global queue is
untouched and `notify` is not called. -/
theorem schedule_tls_handoff :
    (∀ (es : ExecState) (tls : TlsSlot) (r : Nat),
        ((tryPushTls es tls r).1 = false ↔
          (tls.borrowed = true ∨ tls.data = none ∨
            ∃ d, tls.data = some d ∧ d.stateId ≠ es.stateId))) ∧
    (∀ (es : ExecState) (tls : TlsSlot) (r : Nat),
        (tryPushTls es tls r).1 = false →
          scheduleRemote es tls r =
            (stateNotify { es with globalQueue := es.globalQueue ++ [r] },
              tls)) ∧
    (∀ (es : ExecState) (tls : TlsSlot) (d : TlsData) (r : Nat),
        tls.borrowed = false → tls.data = some d →
        d.stateId = es.stateId →
          scheduleRemote es tls r =
            ((match (tickerWake es d.tickerIdx).1 with
              | some v => { (tickerWake es d.tickerIdx).2 with
                  woken := (tickerWake es d.tickerIdx).2.woken ++ [v] }
              | none => (tickerWake es d.tickerIdx).2),
              { tls with
                  data := some { d with pending := d.pending ++ [r] } }) ∧
          (scheduleRemote es tls r).1.globalQueue = es.globalQueue) := by
  refine ⟨?_, ?_, ?_⟩
  · intro es tls r
    by_cases hb : tls.borrowed
    · simp [tryPushTls, hb]
    · rcases hd : tls.data with _ | d
      · simp [tryPushTls, hb, hd]
      · by_cases hs : d.stateId = es.stateId
        · cases hw : (tickerWake es d.tickerIdx).1 <;>
            simp [tryPushTls, hb, hd, hs, hw]
        · simp [tryPushTls, hb, hd, hs]
  · intro es tls r h
    have he := tryPushTls_fail_eq h
    rw [scheduleRemote, he]
    simp
  · intro es tls d r hb hd hs
    have hok : tryPushTls es tls r =
        (true,
          (match (tickerWake es d.tickerIdx).1 with
            | some v => { (tickerWake es d.tickerIdx).2 with
                woken := (tickerWake es d.tickerIdx).2.woken ++ [v] }
            | none => (tickerWake es d.tickerIdx).2),
          { tls with data := some { d with pending := d.pending ++ [r] } }) := by
      cases hw : (tickerWake es d.tickerIdx).1 <;>
        simp [tryPushTls, hb, hd, hs, hw]
    constructor
    · rw [scheduleRemote, hok]
      simp
    · rw [scheduleRemote, hok]
      cases hw : (tickerWake es d.tickerIdx).1 <;>
        simp [hw, tickerWake_globalQueue]

/-- A TLS slot bound to state 0 whose owning ticker is index 0 of
`sampleSleeping`. -/
def sampleTls : TlsSlot :=
  { borrowed := false,
    data := some { stateId := 0, tickerIdx := 0, pending := [4] } }

theorem schedule_tls_handoff_witness :
    (scheduleRemote sampleSleeping sampleTls 8).1.globalQueue =
      sampleSleeping.globalQueue :=
  ((schedule_tls_handoff.2.2 sampleSleeping sampleTls
    { stateId := 0, tickerIdx := 0, pending := [4] } 8 rfl rfl rfl)).2

/-- C6.  Dropping a `Ticker` whose `sleeping` atomic holds a nonzero id
removes that id from the sleepers table, re-mirrors the `notified` atomic from
`is_notified()`, and re-issues `State::notify` exactly when the removal
returned `None` — which happens exactly when the id was absent from `wakers`,
i.e. a notification had been directed at this ticker; so such a notification
is handed on rather than lost. -/
theorem ticker_drop_renotify :
    ∀ (es : ExecState) (t id : Nat), es.tickers.get? t = some (some id) →
      id ≠ 0 →
      (tickerDrop es t =
        (if ((es.sleepers.remove id).1).isNone then
          stateNotify { es with
              sleepers := (es.sleepers.remove id).2
              tickers := es.tickers.set t none
              notified := (es.sleepers.remove id).2.isNotified }
        else { es with
            sleepers := (es.sleepers.remove id).2
            tickers := es.tickers.set t none
            notified := (es.sleepers.remove id).2.isNotified })) ∧
      ((es.sleepers.remove id).1 = none ↔
        id ∉ es.sleepers.wakers.map Prod.fst) := by
  intro es t id h hid
  constructor
  · simp only [tickerDrop, List.get?_eq_getElem?, getElem?_of_get? h]
    rw [if_neg hid]
  · show (removeById es.sleepers.wakers id).1 = none ↔ _
    exact removeById_none_iff es.sleepers.wakers id

/-- A state with one sleeping ticker that has already been notified (id 1 is
counted but absent from `wakers`). -/
def sampleNotified : ExecState :=
  { stateId := 0, sleepers := { count := 1, wakers := [], free_ids := [] },
    notified := true, searchingCount := 0, tickers := [some 1],
    localQueues := [], globalQueue := [], woken := [] }

theorem ticker_drop_renotify_witness :
    (sampleNotified.sleepers.remove 1).1 = none ↔
      1 ∉ sampleNotified.sleepers.wakers.map Prod.fst :=
  (ticker_drop_renotify sampleNotified 0 1 (by rfl) (by decide)).2

/-- C7.  `Executor::try_tick` consults only the global queue: on an empty
global queue it returns `false` and the state is unchanged (whatever the TLS
pending list or the local queues hold); when a runnable is present it calls
`State::notify` first, runs exactly that one popped runnable, and returns
`true`. -/
theorem tryTick_global_only :
    ∀ es : ExecState,
      (es.globalQueue = [] → tryTick es = (false, none, es)) ∧
      (∀ r rest, es.globalQueue = r :: rest →
        tryTick es = (true, some r,
          stateNotify { es with globalQueue := rest })) ∧
      ((tryTick es).1 = true ↔ es.globalQueue ≠ []) := by
  intro es
  refine ⟨?_, ?_, ?_⟩
  · intro hq
    simp [tryTick, hq]
  · intro r rest hq
    simp [tryTick, hq]
  · rcases hq : es.globalQueue with _ | ⟨r, rest⟩ <;> simp [tryTick, hq]

/-- A state with an empty global queue but a registered local queue, a TLS-era
sleeping ticker and a pending waker, to exercise the no-op branch. -/
def sampleIdle : ExecState :=
  { stateId := 0, sleepers := { count := 1, wakers := [(1, 5)], free_ids := [] },
    notified := false, searchingCount := 2, tickers := [some 1],
    localQueues := [some 3], globalQueue := [], woken := [] }

theorem tryTick_global_only_witness :
    tryTick sampleIdle = (false, none, sampleIdle) :=
  (tryTick_global_only sampleIdle).1 rfl

/-- C8.  Clearing the TLS slot drops its `TlsData`, whose `Drop` drains the
entire pending list onto the global queue in order; hence every runnable left
in the TLS pending list when `run()` exits resurfaces on the global queue
(the pending list is a suffix of the resulting queue) and the slot is left
empty. -/
theorem tls_clear_drains (es : ExecState) (d : TlsData) :
    clearTls es (some d) =
        ({ es with globalQueue := es.globalQueue ++ d.pending }, none) ∧
      List.IsSuffix d.pending (clearTls es (some d)).1.globalQueue ∧
      clearTls es none = (es, none) :=
  ⟨rfl, ⟨es.globalQueue, rfl⟩, rfl⟩

theorem mem_slabIter {α : Type} {s : List (Option α)} {k : Nat} {v : α} :
    (k, v) ∈ slabIter s ↔ s.get? k = some (some v) := by
  rw [List.get?_eq_getElem?]
  constructor
  · intro h
    rcases List.mem_filterMap.mp h with ⟨p, hp, hf⟩
    rcases p with ⟨i, o⟩
    cases o with
    | none => simp at hf
    | some v' =>
        simp at hf
        rcases hf with ⟨rfl, rfl⟩
        exact List.mem_enum_iff_getElem?.mp hp
  · intro h
    exact List.mem_filterMap.mpr
      ⟨(k, some v), List.mem_enum_iff_getElem?.mpr h, by simp⟩

theorem slabInsert_registered {α : Type} (s : List (Option α)) (v : α) :
    ((slabInsert s v).1, v) ∈ slabIter (slabInsert s v).2 := by
  rw [mem_slabIter]
  unfold slabInsert slabVacantKey
  cases hf : s.findIdx? Option.isNone with
  | some k =>
      have hk : k < s.length :=
        (List.findIdx?_eq_some_iff_findIdx_eq.mp hf).1
      simp only [hk, if_pos]
      rw [List.get?_eq_getElem?]
      rw [List.getElem?_set_self (by simpa using hk)]
  | none =>
      simp only [lt_irrefl, if_neg]
      rw [List.get?_eq_getElem?]
      exact List.getElem?_concat_length s (some v)

theorem peerOrder_perm {α : Type} (reg : List (Nat × α)) (start selfId : Nat)
    (h : start < reg.length) :
    (peerOrder reg start selfId).Perm
      (reg.filter (fun p => p.1 ≠ selfId)) := by
  have hle : start ≤ reg.length := Nat.le_of_lt h
  have hdrop : (reg ++ reg).drop start = reg.drop start ++ reg :=
    List.drop_append_of_le_length hle
  have htake : (reg.drop start ++ reg).take reg.length =
      reg.drop start ++ reg.take start := by
    rw [List.take_append_eq_append_take]
    rw [List.take_of_length_le (by rw [List.length_drop]; omega)]
    have harg : reg.length - (reg.drop start).length = start := by
      rw [List.length_drop]
      omega
    rw [harg]
  have hrot : ((reg ++ reg).drop start).take reg.length = reg.rotate start := by
    rw [hdrop, htake, List.rotate_eq_drop_append_take hle]
  show ((((reg ++ reg).drop start).take reg.length).filter _).Perm _
  rw [hrot]
  exact (List.rotate_perm reg start).filter _

/-- C9.  The peer-steal phase of `Runner::runnable` is panic-free and fair:
`Runner::new` registers the runner's own queue handle in the local-queue slab,
so whenever the handle is still registered the snapshot is nonempty
(`0 < n`), making `fastrand::usize(..n)`'s empty-range panic unreachable; and
for every valid random start, `chain`/`skip`/`take` walks a rotation of the
registry that visits every entry exactly once, with the runner's own id
filtered out. -/
theorem runner_peer_search_safe :
    (∀ (s : List (Option Nat)) (h : Nat),
        ((slabInsert s h).1, h) ∈ slabIter (slabInsert s h).2) ∧
    (∀ (reg : List (Option Nat)) (k h : Nat),
        (k, h) ∈ slabIter reg → 0 < (slabIter reg).length) ∧
    (∀ (reg : List (Nat × Nat)) (start selfId : Nat), start < reg.length →
        (peerOrder reg start selfId).Perm
          (reg.filter (fun p => p.1 ≠ selfId))) := by
  refine ⟨fun s h => slabInsert_registered s h, ?_, ?_⟩
  · intro reg k h hm
    exact List.length_pos.mpr (List.ne_nil_of_mem hm)
  · intro reg start selfId h
    exact peerOrder_perm reg start selfId h

theorem runner_peer_search_safe_witness :
    ((slabInsert ([] : List (Option Nat)) 5).1, 5) ∈
        slabIter (slabInsert ([] : List (Option Nat)) 5).2 ∧
      0 < (slabIter [some 5, none, some 7]).length ∧
      (peerOrder [(0, 5), (2, 7)] 1 0).Perm
        (List.filter (fun p => p.1 ≠ 0) [(0, 5), (2, 7)]) :=
  ⟨runner_peer_search_safe.1 [] 5,
    runner_peer_search_safe.2.1 [some 5, none, some 7] 0 5 (by decide),
    runner_peer_search_safe.2.2 [(0, 5), (2, 7)] 1 0 (by decide)⟩

/-- C2 (evaluation).  The on-completion guard of `Executor::spawn` checks
`active.contains(index)` and therefore never panics: it is total and a no-op
on an absent index.  The guard of `LocalExecutor::spawn` calls `Slab::remove`
unconditionally, and on an index absent from the active set (as after
executor teardown has drained it) `Slab::remove` panics — modelled by the
guard returning `none` at the concrete failing input. -/
theorem spawn_guard_teardown_eval :
    (∀ (a : List (Option Nat)) (i : Nat), (executorGuard a i).isSome = true) ∧
      executorGuard [] 0 = some [] ∧
      localExecutorGuard [] 0 = none := by
  refine ⟨?_, rfl, rfl⟩
  intro a i
  by_cases hc : slabContains a i
  · have hv : ∃ v, a.get? i = some (some v) := by
      unfold slabContains at hc
      rcases hg : a.get? i with _ | o
      · rw [hg] at hc
        cases hc
      · cases o with
        | none =>
            rw [hg] at hc
            cases hc
        | some v => exact ⟨v, rfl⟩
    rcases hv with ⟨v, hv⟩
    simp [executorGuard, hc, slabRemove, getElem?_of_get? hv]
  · simp [executorGuard, hc]
